import Mathlib

/-!
Verification of the task-scheduling engine of the AI-ATL-2025 backend
(`backend/services/function_executor.py`, method `schedule_tasks` and its
helpers).  Times are modelled as `Int` minutes since the Unix epoch in UTC;
calendar intervals are pairs `(start, stop)` of such minutes.  The user's
IANA timezone is modelled as a fixed UTC offset in minutes (valid on any
date range with no DST transition).
-/

namespace Sched

/-- Minutes of one day. -/
def minutesPerDay : Int := 1440

/-- Model of `dt.replace(hour=0, minute=0, second=0, microsecond=0)`:
floor an instant to the midnight of its calendar day (UTC calendar). -/
def dayFloor (t : Int) : Int := 1440 * (Int.ediv t 1440)

/-- Model of Python `datetime.weekday()` (Monday = 0 .. Sunday = 6) for an
instant given in minutes since the epoch; 1970-01-01 (day 0) was a Thursday. -/
def weekdayOf (t : Int) : Int := Int.emod (Int.ediv t 1440 + 3) 7

/-- `day_num = (day_of_week + 1) % 7` from the scheduling loop
(line 1215): Sunday = 0 .. Saturday = 6. -/
def dayNumOf (t : Int) : Int := Int.emod (weekdayOf t + 1) 7

/-- Conversion of a timezone-naive local wall-clock value to UTC, for a
timezone modelled as a fixed offset (minutes east of UTC, e.g. -300 for
America/New_York in November 2025).  Models
`naive.replace(tzinfo=user_tz).astimezone(timezone.utc).replace(tzinfo=None)`. -/
def utcOfLocal (tzOffset localNaive : Int) : Int := localNaive - tzOffset

/-- Expansion of an all-day external event (date-only start/end, the end
date being exclusive) into a busy interval, from lines 737-748: local
midnight of each date, localized to the user's timezone, converted to UTC.
`startDay`/`endDay` are calendar day numbers (days since 1970-01-01). -/
def allDayBusyInterval (tzOffset startDay endDay : Int) : Int × Int :=
  (utcOfLocal tzOffset (1440 * startDay), utcOfLocal tzOffset (1440 * endDay))

/-- `is_slot_free` from lines 820-827: a candidate `[startDt, endDt)` is
free iff no busy interval, padded by the buffer when `withBuffer`, meets
`start_dt < busy_end + buffer and end_dt + buffer > busy_start`. -/
def is_slot_free (bufferMinutes : Int) (busy : List (Int × Int))
    (startDt endDt : Int) (withBuffer : Bool) : Bool :=
  let buffer : Int := if withBuffer then bufferMinutes else 0
  busy.all fun bi => !(decide (startDt < bi.2 + buffer) && decide (endDt + buffer > bi.1))

/-- `get_daily_study_minutes` from lines 829-840: sum the durations of the
busy intervals fully contained in the calendar day of `date`, counting only
those of duration at most 180 minutes. -/
def get_daily_study_minutes (busy : List (Int × Int)) (date : Int) : Int :=
  let dayStart := dayFloor date
  let dayEnd := dayStart + 1440
  busy.foldl
    (fun total bi =>
      if dayStart ≤ bi.1 ∧ bi.2 ≤ dayEnd then
        if bi.2 - bi.1 ≤ 180 then total + (bi.2 - bi.1) else total
      else total)
    0

/-- An interval padded by `b` on both sides (specification-side notion for
claim C8). -/
def pad (b : Int) (iv : Int × Int) : Int × Int := (iv.1 - b, iv.2 + b)

/-- Two half-open intervals share an instant (specification-side notion). -/
def intervalsOverlap (a b : Int × Int) : Prop :=
  ∃ t : Int, (a.1 ≤ t ∧ t < a.2) ∧ (b.1 ≤ t ∧ t < b.2)

/-- Specification-side daily load (the wording of claim C9): the sum of the
durations of exactly those busy intervals fully contained in the day that
are at most 180 minutes long. -/
def specDailyLoad (busy : List (Int × Int)) (date : Int) : Int :=
  ((busy.filter fun bi =>
      decide (dayFloor date ≤ bi.1) && decide (bi.2 ≤ dayFloor date + 1440)
        && decide (bi.2 - bi.1 ≤ 180)).map
    (fun bi => bi.2 - bi.1)).sum

/-- The day-level checks of the scheduling loop, lines 1213-1224: the day's
`day_num` must be in `daysAvailable` and scheduling `dur` more minutes must
not push the daily study load over `maxDailyHours * 60`. -/
def dayPasses (daysAvailable : List Int) (busy : List (Int × Int))
    (maxDailyHours dur d : Int) : Bool :=
  decide (dayNumOf d ∈ daysAvailable)
    && !(decide (get_daily_study_minutes busy d + dur > maxDailyHours * 60))

/-! ## Dependency resolver (`topological_sort`, lines 1132-1177) -/

/-- `dependency_graph`: association list `task_title -> depends_on`
built at lines 1133-1141 (Python dict, titles assumed distinct). -/
abbrev Graph := List (String × List String)

/-- The task titles (the keys of the graph dict). -/
def keysOf (g : Graph) : List String := g.map Prod.fst

/-- The dependency list recorded for a title (empty for unknown titles). -/
def depsOf (g : Graph) (t : String) : List String :=
  match g.find? (fun p => p.1 == t) with
  | some p => p.2
  | none => []

/-- `dep in graph`: the title is a known sibling task. -/
def isKey (g : Graph) (t : String) : Bool := decide (t ∈ keysOf g)

/-- `in_degree[task] = len([dep for dep in graph[task] if dep in graph])`
(line 1153), kept as `Int` like the Python value. -/
def initDeg (g : Graph) (t : String) : Int :=
  (((depsOf g t).filter fun d => isKey g d).length : Int)

/-- One pass of `for other_task, deps in graph.items(): if current in deps:
in_degree[other_task] -= 1` (lines 1166-1169). -/
def decDeg (g : Graph) (current : String) (deg : String → Int) : String → Int :=
  fun t => if current ∈ depsOf g t then deg t - 1 else deg t

/-- The tasks enqueued by the decrement pass (line 1170-1172): those that
named `current` as a dependency and whose decremented in-degree is 0,
in graph order. -/
def newlyReady (g : Graph) (current : String) (deg : String → Int) : List String :=
  (g.filter fun p =>
      decide (current ∈ p.2) && (decDeg g current deg p.1 == 0)).map Prod.fst

/-- Stable insertion of a title into a queue sorted by `order_index`. -/
def orderedInsert (oi : String → Nat) (a : String) : List String → List String
  | [] => [a]
  | b :: l => if oi a ≤ oi b then a :: b :: l else b :: orderedInsert oi a l

/-- `queue.sort(key=lambda t: order_index(t))` (line 1161): a stable sort
by ascending order index, modelled by insertion sort (any stable sort by
the same key produces the same list as Python's stable `list.sort`). -/
def sortByOi (oi : String → Nat) : List String → List String
  | [] => []
  | a :: l => orderedInsert oi a (sortByOi oi l)

/-- The `while queue:` loop of `topological_sort` (lines 1159-1173): sort
the queue by order index, pop the front, append it to the result, decrement
the in-degree of every task that depends on it, enqueueing tasks that reach
in-degree 0.  `fuel` only bounds the iteration count; the initial fuel
`2 * |graph| + 1` is proved sufficient in the theorems below. -/
def tsortLoop (g : Graph) (oi : String → Nat) :
    Nat → (String → Int) → List String → List String → List String
  | 0, _, _, sorted => sorted
  | fuel + 1, deg, queue, sorted =>
    match sortByOi oi queue with
    | [] => sorted
    | current :: rest =>
      tsortLoop g oi fuel (decDeg g current deg)
        (rest ++ newlyReady g current deg) (sorted ++ [current])

/-- `topological_sort` (lines 1144-1174): Kahn's algorithm seeded with the
zero-in-degree tasks in graph order. -/
def topological_sort (g : Graph) (oi : String → Nat) : List String :=
  tsortLoop g oi (2 * g.length + 1) (initDeg g)
    ((g.filter fun p => initDeg g p.1 == 0).map Prod.fst) []

/-! ## Slot search within one preferred window (lines 1254-1269, 1391) -/

/-- `slot_increment = max(15, min(default_work_duration, 45))` (line 818). -/
def slot_increment (defaultWorkDuration : Int) : Int :=
  max 15 (min defaultWorkDuration 45)

/-- The back-to-back-intensity rejection of lines 1264-1269: an "intense"
candidate is skipped when the task scheduled immediately before it in this
run was "intense", ended at `lastEnd`, and the gap is under 60 minutes.
Intervals already on the busy timeline carry no intensity and play no part
here. -/
def cooldownRejects (intensity : String) (lastIntensity : Option String)
    (lastEnd : Option Int) (candidate : Int) : Bool :=
  intensity == "intense" && lastIntensity == some "intense"
    && (match lastEnd with
        | some l => decide (candidate - l < 60)
        | none => false)

/-- The `while candidate_start + duration <= block_end` cursor loop of
lines 1257-1269/1391, with acceptance standing for the commit step: return
the first cursor position that is free with buffer and not rejected by the
intensity cooldown, stepping by `inc`.  `fuel` bounds the iterations; the
wrapper below supplies enough fuel for any positive increment. -/
def candidateLoop (buffer : Int) (busy : List (Int × Int)) (intensity : String)
    (lastIntensity : Option String) (lastEnd : Option Int)
    (dur inc blockEnd : Int) : Nat → Int → Option Int
  | 0, _ => none
  | fuel + 1, candidate =>
    if candidate + dur ≤ blockEnd then
      if is_slot_free buffer busy candidate (candidate + dur) true then
        if cooldownRejects intensity lastIntensity lastEnd candidate then
          candidateLoop buffer busy intensity lastIntensity lastEnd dur inc blockEnd
            fuel (candidate + inc)
        else some candidate
      else
        candidateLoop buffer busy intensity lastIntensity lastEnd dur inc blockEnd
          fuel (candidate + inc)
    else none

/-- The cursor loop started at the window's beginning. -/
def findCandidateInBlock (buffer : Int) (busy : List (Int × Int)) (intensity : String)
    (lastIntensity : Option String) (lastEnd : Option Int)
    (dur inc blockStart blockEnd : Int) : Option Int :=
  candidateLoop buffer busy intensity lastIntensity lastEnd dur inc blockEnd
    ((blockEnd - blockStart).toNat + 1) blockStart

/-! ## Atomic commit (`create_calendar_event_atomic`, lines 842-1130) -/

/-- An external calendar event, with its times already normalized to UTC
minutes (the source normalizes with `normalize_datetime` and skips
unparseable events). -/
structure Event where
  id : String
  start : Int
  stop : Int
deriving DecidableEq

/-- Outcome of one call to the external create-event endpoint
(lines 983-1092): HTTP 200 with a created event, HTTP 200 with an empty
`created_events` list and an error message, a non-200 status, or a raised
exception. -/
inductive CreateOutcome where
  | ok (ev : Event)
  | emptyErrors (msg : String)
  | httpStatus (code : Nat) (body : String)
  | exn (msg : String)
deriving DecidableEq

/-- The external world as seen by one run of the atomic commit: the fresh
calendar fetch per attempt (`none` models a fetch whose response has
`success == False`), the create outcome per attempt, and whether an auth
token is present. -/
structure AtomicEnv where
  fetch : Nat → Option (List Event)
  create : Nat → CreateOutcome
  hasAuth : Bool

/-- The results `create_calendar_event_atomic` can return. -/
inductive AtomicResult where
  | success (ev : Event) (attempts : Nat)
  | conflictDetected (msg : String) (retry : Bool)
  | noAuth
  | apiError (msg : String)
  | exceptionError (msg : String)
  | maxRetriesExceeded
deriving DecidableEq

/-- `needle` is an initial segment of `hay`. -/
def listStartsWith : List Char → List Char → Bool
  | [], _ => true
  | _ :: _, [] => false
  | a :: as, b :: bs => a == b && listStartsWith as bs

/-- `needle` occurs as a contiguous subsequence of `hay` (Python `in` on
strings). -/
def listContainsSeq (needle : List Char) : List Char → Bool
  | [] => needle.isEmpty
  | b :: bs => listStartsWith needle (b :: bs) || listContainsSeq needle bs

/-- The `"conflict" in str(msg).lower() or "overlap" in str(msg).lower()`
check of line 1054. -/
def isConflictMsg (m : String) : Bool :=
  listContainsSeq "conflict".data (m.data.map Char.toLower)
    || listContainsSeq "overlap".data (m.data.map Char.toLower)

/-- Message of the freshness-check conflict return (lines 949-954). -/
def freshConflictMsg : String :=
  "Another event was created in this time slot. Task needs rescheduling."

/-- The `for attempt in range(max_retries)` loop of lines 870-1123, with an
explicit cache state (the module-level `_calendar_cache` entry for this
window: `none` = miss or cleared) and a counter of calls made to the
external create endpoint.  Step order per attempt: read the cache, on a
miss fetch fresh events and fill the cache, check the fresh data for an
overlap with the proposed `[s, e)` (returning `CONFLICT_DETECTED` when one
is found), bail out without auth, then call the create endpoint; a created
event clears the cache (line 1026); HTTP 5xx and exceptions retry while
attempts remain. -/
def atomicLoop (env : AtomicEnv) (s e : Int) (maxRetries : Nat) :
    Nat → Nat → Option (List Event) → Nat →
    AtomicResult × Option (List Event) × Nat
  | _, 0, cache, calls => (.maxRetriesExceeded, cache, calls)
  | attempt, fuel + 1, cache, calls =>
    let fetched : List Event × Option (List Event) :=
      match cache with
      | some evs => (evs, some evs)
      | none =>
        match env.fetch attempt with
        | some evs => (evs, some evs)
        | none => ([], none)
    let events := fetched.1
    let cache1 := fetched.2
    if events.any (fun ev => decide (s < ev.stop) && decide (e > ev.start)) then
      (.conflictDetected freshConflictMsg (attempt < maxRetries - 1), cache1, calls)
    else if !env.hasAuth then
      (.noAuth, cache1, calls)
    else
      match env.create attempt with
      | .ok ev => (.success ev (attempt + 1), none, calls + 1)
      | .emptyErrors msg =>
        if isConflictMsg msg then
          (.conflictDetected msg (attempt < maxRetries - 1), cache1, calls + 1)
        else
          (.apiError msg, cache1, calls + 1)
      | .httpStatus code body =>
        if 500 ≤ code ∧ attempt < maxRetries - 1 then
          atomicLoop env s e maxRetries (attempt + 1) fuel cache1 (calls + 1)
        else
          (.apiError body, cache1, calls + 1)
      | .exn msg =>
        if attempt < maxRetries - 1 then
          atomicLoop env s e maxRetries (attempt + 1) fuel cache1 (calls + 1)
        else
          (.exceptionError msg, cache1, calls + 1)

/-- `create_calendar_event_atomic(task..., scheduled_start=s,
scheduled_end=e, max_retries=maxRetries)`, run against `env` with the given
initial cache entry; returns the result together with the cache entry after
the call and the number of external create calls made. -/
def create_calendar_event_atomic (env : AtomicEnv) (s e : Int)
    (maxRetries : Nat) (cache0 : Option (List Event)) :
    AtomicResult × Option (List Event) × Nat :=
  atomicLoop env s e maxRetries 0 maxRetries cache0 0

/-! ## Per-task commit with compensating rollback (lines 1278-1389) -/

/-- The `scheduled_start` / `scheduled_end` fields of one task in the task
store (`None` when the task is unscheduled). -/
structure TaskSched where
  schedStart : Option Int
  schedEnd : Option Int
deriving DecidableEq

/-- The rollback write of lines 1347-1368: `rollback_data` gets
`scheduled_start` only if the snapshot had a truthy previous start, likewise
for the end; a non-empty `rollback_data` is written field-wise over the
current (tentative) record, while an empty one clears both fields. -/
def rollback (snap db : TaskSched) : TaskSched :=
  if snap.schedStart.isSome ∨ snap.schedEnd.isSome then
    { schedStart := if snap.schedStart.isSome then snap.schedStart else db.schedStart
      schedEnd := if snap.schedEnd.isSome then snap.schedEnd else db.schedEnd }
  else
    { schedStart := none, schedEnd := none }

/-- The commit step for one accepted candidate `[s, e)` (lines 1278-1389):
snapshot the prior fields, tentatively write the candidate, run the atomic
calendar-event creation, keep the tentative write on success and roll it
back on any failure.  Returns the task's final store record and the atomic
result. -/
def commitTask (env : AtomicEnv) (prior : TaskSched) (s e : Int)
    (maxRetries : Nat) (cache0 : Option (List Event)) :
    TaskSched × AtomicResult :=
  let tentative : TaskSched := { schedStart := some s, schedEnd := some e }
  let res := (create_calendar_event_atomic env s e maxRetries cache0).1
  match res with
  | .success _ _ => (tentative, res)
  | _ => (rollback prior tentative, res)

/-! ## The scheduling run (`schedule_tasks`, normal mode, lines 1132-1623)

The normal scheduling mode references the name `user_tz_offset` at
lines 1235 and 1248, but no statement anywhere in the repository assigns
it, so the first evaluation of the time-window loop body raises
`NameError`.  The run model below reproduces this: the body computation
lives in `Except String`, the error being raised exactly where the first
available day reaches the (non-empty) window list; the outer
`try ... except Exception` of lines 343/1597-1623 converts a raised error
into a returned failure dictionary. -/

/-- A task as fed to the scheduling loop. -/
structure TaskRec where
  title : String
  estimatedDuration : Int
  intensity : String
  dependsOn : List String
  orderIndex : Nat
deriving DecidableEq

/-- The inputs of one normal-mode scheduling run. -/
structure SchedInput where
  tasks : List TaskRec
  daysAvailable : List Int
  blocks : List (Int × Int)
  maxDailyHours : Int
  bufferMinutes : Int
  needsMoreTime : Bool
  busy0 : List (Int × Int)
  start : Int
  dueTarget : Option Int

/-- `int(duration * 1.25)` for subjects flagged as needing more time
(lines 1200-1202); exact for the positive integer durations the store
holds. -/
def scaledDuration (needsMoreTime : Bool) (d : Int) : Int :=
  if needsMoreTime then Int.ediv (5 * d) 4 else d

/-- The message of the `NameError` raised at line 1235. -/
def nameErrMsg : String := "NameError: name user_tz_offset is not defined"

/-- Message of the all-tasks-failed return (line 1591). -/
def noTasksMsg : String :=
  "Failed to schedule any tasks. All slots may be occupied or calendar conflicts detected."

/-- The day loop of one task's primary search (lines 1209-1224 and the
window loop that follows): unavailable or over-cap days are skipped; the
first day that passes both checks enters `for time_block in
available_time_blocks`, whose body begins by reading the undefined
`user_tz_offset` and therefore raises; with an empty window list the loop
body never runs and the search falls through unscheduled. -/
def primaryDays (blocksNonempty : Bool) (daysAvailable : List Int)
    (busy : List (Int × Int)) (maxDailyHours dur : Int) :
    List Int → Except String Unit
  | [] => .ok ()
  | d :: ds =>
    if dayPasses daysAvailable busy maxDailyHours dur d then
      if blocksNonempty then .error nameErrMsg
      else primaryDays blocksNonempty daysAvailable busy maxDailyHours dur ds
    else primaryDays blocksNonempty daysAvailable busy maxDailyHours dur ds

/-- The hourly scan of one fallback day (lines 1408-1426): candidates at
9:00 + h for h in 0..13, first free-with-buffer slot wins. -/
def fallbackHours (buffer : Int) (busy : List (Int × Int)) (dur base : Int) :
    List Nat → Option (Int × Int)
  | [] => none
  | h :: hs =>
    let c := base + 60 * (h : Int)
    if is_slot_free buffer busy c (c + dur) true then some (c, c + dur)
    else fallbackHours buffer busy dur base hs

/-- The fallback pass (lines 1397-1426): scan 30 days from `start`, each at
09:00 local day start, hourly. -/
def fallbackSearch (buffer : Int) (busy : List (Int × Int)) (dur start : Int) :
    Option (Int × Int) :=
  (List.range 30).firstM (fun k =>
    fallbackHours buffer busy dur (dayFloor (start + 1440 * (k : Int)) + 540)
      (List.range 14))

/-- The per-task pipeline: primary search (which, in this code, either
raises `NameError` or finds nothing), then the fallback pass, then — when a
fallback slot is found — the atomic commit, abstracted by the `commitOk`
oracle (a failed commit rolls the task back and leaves it unscheduled,
lines 1497-1521). -/
def scheduleOneTask (inp : SchedInput) (commitOk : String → Int → Int → Bool)
    (busy : List (Int × Int)) (t : TaskRec) :
    Except String (Option (Int × Int)) := do
  let dur := scaledDuration inp.needsMoreTime t.estimatedDuration
  let searchStart := dayFloor inp.start
  let target0 := inp.dueTarget.getD (inp.start + 14 * 1440)
  let target := if target0 < inp.start then inp.start else target0
  let numDays := (Int.ediv (target - searchStart) 1440).toNat + 1
  primaryDays (!inp.blocks.isEmpty) inp.daysAvailable busy inp.maxDailyHours dur
    ((List.range numDays).map fun k => searchStart + 1440 * (k : Int))
  match fallbackSearch inp.bufferMinutes busy dur inp.start with
  | none => pure none
  | some (s, e) => if commitOk t.title s e then pure (some (s, e)) else pure none

/-- The `for task in sorted_tasks` loop (lines 1196-1521), threading the
busy timeline (each committed slot is appended, lines 1330/1487) and the
list of scheduled task titles. -/
def scheduleBodyLoop (inp : SchedInput) (commitOk : String → Int → Int → Bool) :
    List TaskRec → List (Int × Int) → List String → Except String (List String)
  | [], _, acc => .ok acc
  | t :: ts, busy, acc =>
    match scheduleOneTask inp commitOk busy t with
    | .error m => .error m
    | .ok none => scheduleBodyLoop inp commitOk ts busy acc
    | .ok (some (s, e)) =>
      scheduleBodyLoop inp commitOk ts (busy ++ [(s, e)]) (acc ++ [t.title])

/-- The body of a normal-mode scheduling run: build the dependency graph,
topologically sort it with `order_index` tie-break (default 999 for unknown
titles, line 1161), then schedule each task in order. -/
def scheduleBody (inp : SchedInput) (commitOk : String → Int → Int → Bool) :
    Except String (List String) :=
  let graph : Graph := inp.tasks.map fun t => (t.title, t.dependsOn)
  let oi : String → Nat := fun s =>
    (((inp.tasks.find? fun t => t.title == s).map TaskRec.orderIndex).getD 999)
  let sortedTitles := topological_sort graph oi
  let sortedTasks := sortedTitles.filterMap fun ttl =>
    inp.tasks.find? fun t => t.title == ttl
  scheduleBodyLoop inp commitOk sortedTasks inp.busy0 []

/-- The dictionary `schedule_tasks` returns. -/
structure SchedResponse where
  success : Bool
  error : Option String
  scheduledTitles : List String
deriving DecidableEq

/-- `schedule_tasks` (normal mode): the result assembly of lines 1574-1595
(success iff at least one task was scheduled) together with the
exception handler of lines 1597-1623 (any raised error becomes a returned
`success=False` dictionary carrying the message). -/
def schedule_tasks_model (inp : SchedInput)
    (commitOk : String → Int → Int → Bool) : SchedResponse :=
  match scheduleBody inp commitOk with
  | .error msg => { success := false, error := some msg, scheduledTitles := [] }
  | .ok sch =>
    if sch.length > 0 then { success := true, error := none, scheduledTitles := sch }
    else { success := false, error := some noTasksMsg, scheduledTitles := sch }

/-! ## Lemmas about the queue sort -/

theorem orderedInsert_perm (oi : String → Nat) (a : String) (l : List String) :
    (orderedInsert oi a l).Perm (a :: l) := by
  induction l with
  | nil => simp [orderedInsert]
  | cons b t ih =>
    by_cases h : oi a ≤ oi b
    · simp [orderedInsert, h]
    · simp only [orderedInsert, if_neg h]
      exact (List.Perm.cons b ih).trans (List.Perm.swap a b t)

theorem sortByOi_perm (oi : String → Nat) (l : List String) :
    (sortByOi oi l).Perm l := by
  induction l with
  | nil => simp [sortByOi]
  | cons a t ih =>
    exact (orderedInsert_perm oi a (sortByOi oi t)).trans (List.Perm.cons a ih)

theorem sortByOi_eq_nil {oi : String → Nat} {l : List String}
    (h : sortByOi oi l = []) : l = [] := by
  have := sortByOi_perm oi l
  rw [h] at this
  exact this.symm.eq_nil

theorem sortByOi_head_min {oi : String → Nat} {l rest : List String} {c : String}
    (h : sortByOi oi l = c :: rest) : ∀ x ∈ l, oi c ≤ oi x := by
  induction l generalizing c rest with
  | nil => simp [sortByOi] at h
  | cons a t ih =>
    simp only [sortByOi] at h
    cases hs : sortByOi oi t with
    | nil =>
      have ht : t = [] := sortByOi_eq_nil hs
      rw [hs] at h
      simp only [orderedInsert] at h
      have hca : c = a := (List.cons_eq_cons.mp h).1.symm
      intro x hx
      rw [ht] at hx
      rcases List.mem_cons.mp hx with rfl | hx
      · exact hca ▸ le_refl _
      · simp at hx
    | cons b r =>
      rw [hs] at h
      by_cases hab : oi a ≤ oi b
      · simp only [orderedInsert, if_pos hab] at h
        have hca : c = a := (List.cons_eq_cons.mp h).1.symm
        subst hca
        intro x hx
        rcases List.mem_cons.mp hx with rfl | hx
        · exact le_refl _
        · exact le_trans hab (ih hs x hx)
      · simp only [orderedInsert, if_neg hab] at h
        have hcb : c = b := (List.cons_eq_cons.mp h).1.symm
        subst hcb
        intro x hx
        rcases List.mem_cons.mp hx with rfl | hx
        · exact le_of_lt (lt_of_not_le hab)
        · exact ih hs x hx

/-! ## Counting lemmas for the in-degree invariant -/

theorem length_filter_sub {α : Type} [DecidableEq α] {l : List α}
    (hl : l.Nodup) (a : α) (ha : a ∈ l) (p q : α → Bool)
    (hq : ∀ x ∈ l, q x = (p x && !(decide (x = a)))) (hpa : p a = true) :
    (l.filter q).length + 1 = (l.filter p).length := by
  induction l with
  | nil => simp at ha
  | cons b xs ih =>
    rcases List.mem_cons.mp ha with hba | hax
    · subst hba
      have hqa : q a = false := by
        rw [hq a (List.mem_cons_self a xs)]
        simp
      have hrest : xs.filter q = xs.filter p := by
        apply List.filter_congr
        intro y hy
        have hyne : y ≠ a := fun hya => (List.nodup_cons.mp hl).1 (hya ▸ hy)
        rw [hq y (List.mem_cons_of_mem a hy)]
        simp [hyne]
      simp [List.filter_cons, hqa, hpa, hrest]
    · have hba : b ≠ a := fun hba => (List.nodup_cons.mp hl).1 (hba ▸ hax)
      have hqb : q b = p b := by
        rw [hq b (List.mem_cons_self b xs)]
        simp [hba]
      have ihx := ih (List.nodup_cons.mp hl).2 hax
        (fun y hy => hq y (List.mem_cons_of_mem b hy))
      cases hpb : p b with
      | true =>
        simp [List.filter_cons, hqb, hpb]
        omega
      | false => simp [List.filter_cons, hqb, hpb, ihx]

theorem filter_length_eq_of_agree {α : Type} {l : List α} (p q : α → Bool)
    (h : ∀ x ∈ l, q x = p x) : (l.filter q).length = (l.filter p).length := by
  rw [List.filter_congr h]

/-! ## Lemmas about the dependency graph -/

theorem depsOf_eq {g : Graph} (hk : (keysOf g).Nodup) {p : String × List String}
    (hp : p ∈ g) : depsOf g p.1 = p.2 := by
  induction g with
  | nil => simp at hp
  | cons q t ih =>
    rcases List.mem_cons.mp hp with rfl | hpt
    · simp [depsOf, List.find?]
    · have hne : ¬(q.1 == p.1) = true := by
        simp only [beq_iff_eq]
        intro hqp
        have : p.1 ∈ keysOf t := List.mem_map.mpr ⟨p, hpt, rfl⟩
        exact (List.nodup_cons.mp hk).1 (hqp ▸ this)
      simp only [depsOf, List.find?, hne]
      exact ih (List.nodup_cons.mp hk).2 hpt

theorem isKey_iff {g : Graph} {t : String} :
    isKey g t = true ↔ ∃ p ∈ g, p.1 = t := by
  simp [isKey, keysOf, List.mem_map]

theorem depsOf_nodup {g : Graph} (hk : (keysOf g).Nodup)
    (hd : ∀ p ∈ g, p.2.Nodup) {t : String} (ht : isKey g t = true) :
    (depsOf g t).Nodup := by
  obtain ⟨p, hp, rfl⟩ := isKey_iff.mp ht
  rw [depsOf_eq hk hp]
  exact hd p hp

theorem mem_newlyReady {g : Graph} (hk : (keysOf g).Nodup)
    {current t : String} {deg : String → Int} :
    t ∈ newlyReady g current deg ↔
      isKey g t = true ∧ current ∈ depsOf g t ∧ decDeg g current deg t = 0 := by
  constructor
  · intro h
    obtain ⟨p, hp, rfl⟩ := List.mem_map.mp h
    have hp2 := List.mem_filter.mp hp
    have hdeps := depsOf_eq hk hp2.1
    refine ⟨isKey_iff.mpr ⟨p, hp2.1, rfl⟩, ?_, ?_⟩
    · rw [hdeps]
      exact of_decide_eq_true (Bool.and_elim_left hp2.2)
    · exact eq_of_beq (Bool.and_elim_right hp2.2)
  · rintro ⟨hkey, hcur, hdeg⟩
    obtain ⟨p, hp, rfl⟩ := isKey_iff.mp hkey
    refine List.mem_map.mpr ⟨p, List.mem_filter.mpr ⟨hp, ?_⟩, rfl⟩
    rw [depsOf_eq hk hp] at hcur
    simp [hcur, hdeg]

theorem newlyReady_nodup {g : Graph} (hk : (keysOf g).Nodup)
    (current : String) (deg : String → Int) :
    (newlyReady g current deg).Nodup := by
  have hsub : List.Sublist (newlyReady g current deg) (keysOf g) :=
    List.Sublist.map Prod.fst (List.filter_sublist g)
  exact hk.sublist hsub

/-! ## The loop invariant of `topological_sort` -/

/-- The predicate a dependency has to meet to still count towards a task's
in-degree: it is a known sibling title that has not been popped yet. -/
def pendingDep (g : Graph) (sorted : List String) (d : String) : Bool :=
  isKey g d && !(decide (d ∈ sorted))

/-- The invariant of the `while queue:` loop: the queue and result lists are
duplicate-free, the result holds only known titles, every in-degree equals
the number of known not-yet-popped dependencies, the queue holds exactly the
ready unpopped tasks, every popped task was popped after all its known
dependencies, and each popped task minimized `order_index` among the tasks
that were ready when it was popped. -/
structure TsInv (g : Graph) (oi : String → Nat) (deg : String → Int)
    (queue sorted : List String) : Prop where
  queue_nodup : queue.Nodup
  sorted_nodup : sorted.Nodup
  sorted_keys : ∀ t ∈ sorted, isKey g t = true
  deg_eq : ∀ t, isKey g t = true →
    deg t = (((depsOf g t).filter (pendingDep g sorted)).length : Int)
  queue_iff : ∀ t, t ∈ queue ↔
    (isKey g t = true ∧ t ∉ sorted ∧ deg t = 0)
  sound : ∀ pre t post, sorted = pre ++ t :: post →
    ∀ d, isKey g d = true → d ∈ depsOf g t → d ∈ pre
  tie : ∀ pre t post, sorted = pre ++ t :: post →
    ∀ u, isKey g u = true → u ∉ pre →
      (∀ d, isKey g d = true → d ∈ depsOf g u → d ∈ pre) → oi t ≤ oi u

theorem append_singleton_decomp {α : Type} {l pre post : List α} {a t : α}
    (h : l ++ [a] = pre ++ t :: post) :
    (pre = l ∧ t = a ∧ post = []) ∨
      ∃ post', post = post' ++ [a] ∧ l = pre ++ t :: post' := by
  rcases List.eq_nil_or_concat post with rfl | ⟨post', b, hcat⟩
  · left
    have hinj := List.append_inj' h (by simp)
    have hta : t = a := by
      have := hinj.2
      simp at this
      exact this.symm
    exact ⟨hinj.1.symm, hta, rfl⟩
  · rw [List.concat_eq_append] at hcat
    subst hcat
    right
    rw [show pre ++ t :: (post' ++ [b]) = (pre ++ t :: post') ++ [b] by simp] at h
    have hinj := List.append_inj' h (by simp)
    have hab : a = b := by
      have := hinj.2
      simpa using this
    exact ⟨post', by rw [hab], hinj.1⟩

theorem step_inv {g : Graph} {oi : String → Nat} (hk : (keysOf g).Nodup)
    (hd : ∀ p ∈ g, p.2.Nodup) {deg : String → Int} {queue sorted : List String}
    {current : String} {rest : List String}
    (hsort : sortByOi oi queue = current :: rest)
    (inv : TsInv g oi deg queue sorted) :
    TsInv g oi (decDeg g current deg) (rest ++ newlyReady g current deg)
      (sorted ++ [current]) := by
  have hperm : (current :: rest).Perm queue := hsort ▸ sortByOi_perm oi queue
  have hqmem : ∀ x, x ∈ queue ↔ x = current ∨ x ∈ rest := by
    intro x
    rw [← hperm.mem_iff]
    simp
  have hcr_nodup : (current :: rest).Nodup := hperm.nodup_iff.mpr inv.queue_nodup
  have hcnr : current ∉ rest := (List.nodup_cons.mp hcr_nodup).1
  have hrest_nodup : rest.Nodup := (List.nodup_cons.mp hcr_nodup).2
  have hcurq : current ∈ queue := (hqmem current).mpr (Or.inl rfl)
  obtain ⟨hcurkey, hcurns, hcurdeg⟩ := (inv.queue_iff current).mp hcurq
  have hpend : ∀ x, pendingDep g (sorted ++ [current]) x
      = (pendingDep g sorted x && !(decide (x = current))) := by
    intro x
    by_cases h1 : x ∈ sorted
    · have h2 : x ∈ sorted ++ [current] := List.mem_append.mpr (Or.inl h1)
      simp [pendingDep, h1, h2]
    · by_cases h3 : x = current
      · have h2 : x ∈ sorted ++ [current] := by simp [h3]
        simp [pendingDep, h1, h2, h3]
      · have h2 : x ∉ sorted ++ [current] := by simp [h1, h3]
        simp [pendingDep, h1, h2, h3]
  have hdeg' : ∀ t, isKey g t = true →
      decDeg g current deg t
        = (((depsOf g t).filter (pendingDep g (sorted ++ [current]))).length : Int) := by
    intro t ht
    have hold := inv.deg_eq t ht
    have hnd : (depsOf g t).Nodup := depsOf_nodup hk hd ht
    by_cases hc : current ∈ depsOf g t
    · have hsub := length_filter_sub hnd current hc (pendingDep g sorted)
        (pendingDep g (sorted ++ [current]))
        (fun x _ => hpend x) (by simp [pendingDep, hcurkey, hcurns])
      simp only [decDeg, if_pos hc]
      rw [hold]
      omega
    · have heq : (depsOf g t).filter (pendingDep g (sorted ++ [current]))
          = (depsOf g t).filter (pendingDep g sorted) := by
        apply List.filter_congr
        intro x hx
        have hxne : x ≠ current := fun h => hc (h ▸ hx)
        rw [hpend x]
        simp [hxne]
      simp only [decDeg, if_neg hc, heq]
      exact hold
  have hqiff' : ∀ t, t ∈ rest ++ newlyReady g current deg ↔
      (isKey g t = true ∧ t ∉ sorted ++ [current] ∧ decDeg g current deg t = 0) := by
    intro t
    by_cases hc : current ∈ depsOf g t
    · by_cases hkt : isKey g t = true
      · have hdegt : 1 ≤ deg t := by
          have hold := inv.deg_eq t hkt
          have hcmem : current ∈ (depsOf g t).filter (pendingDep g sorted) :=
            List.mem_filter.mpr ⟨hc, by simp [pendingDep, hcurkey, hcurns]⟩
          have := List.length_pos_of_mem hcmem
          omega
        have htq : t ∉ queue := by
          intro htq
          obtain ⟨_, _, hdeg0⟩ := (inv.queue_iff t).mp htq
          omega
        have htrest : t ∉ rest := fun h => htq ((hqmem t).mpr (Or.inr h))
        have htsorted : t ∉ sorted := by
          intro hts
          obtain ⟨pre, post, hdecomp⟩ := List.append_of_mem hts
          have hcp : current ∈ pre := inv.sound pre t post hdecomp current hcurkey hc
          exact hcurns (hdecomp ▸ List.mem_append.mpr (Or.inl hcp))
        have htne : t ≠ current := by
          intro h
          rw [h] at hdegt
          omega
        constructor
        · intro hmem
          rcases List.mem_append.mp hmem with h | h
          · exact absurd h htrest
          · have hchar := (mem_newlyReady hk).mp h
            exact ⟨hkt, by simp [htsorted, htne], hchar.2.2⟩
        · rintro ⟨_, _, hdeg0⟩
          exact List.mem_append.mpr (Or.inr ((mem_newlyReady hk).mpr ⟨hkt, hc, hdeg0⟩))
      · constructor
        · intro hmem
          rcases List.mem_append.mp hmem with h | h
          · exact absurd ((inv.queue_iff t).mp ((hqmem t).mpr (Or.inr h))).1 hkt
          · exact absurd ((mem_newlyReady hk).mp h).1 hkt
        · rintro ⟨h, _, _⟩
          exact absurd h hkt
    · have hdegsame : decDeg g current deg t = deg t := by simp [decDeg, hc]
      have hnnew : t ∉ newlyReady g current deg := fun h =>
        hc ((mem_newlyReady hk).mp h).2.1
      constructor
      · intro hmem
        rcases List.mem_append.mp hmem with h | h
        · obtain ⟨hkt, hns, hdeg0⟩ := (inv.queue_iff t).mp ((hqmem t).mpr (Or.inr h))
          have htne : t ≠ current := fun hh => hcnr (hh ▸ h)
          refine ⟨hkt, by simp [hns, htne], ?_⟩
          rw [hdegsame]
          exact hdeg0
        · exact absurd h hnnew
      · rintro ⟨hkt, hns', hdeg0⟩
        have hns : t ∉ sorted := fun h => hns' (List.mem_append.mpr (Or.inl h))
        have htne : t ≠ current := fun h => hns' (by simp [h])
        have htq : t ∈ queue := by
          refine (inv.queue_iff t).mpr ⟨hkt, hns, ?_⟩
          rw [← hdegsame]
          exact hdeg0
        rcases (hqmem t).mp htq with h | h
        · exact absurd h htne
        · exact List.mem_append.mpr (Or.inl h)
  have hq'nd : (rest ++ newlyReady g current deg).Nodup := by
    refine List.Nodup.append hrest_nodup (newlyReady_nodup hk current deg) ?_
    intro x hx hx2
    obtain ⟨hkx, hcx, _⟩ := (mem_newlyReady hk).mp hx2
    obtain ⟨_, _, hdeg0⟩ := (inv.queue_iff x).mp ((hqmem x).mpr (Or.inr hx))
    have hold := inv.deg_eq x hkx
    have hcmem : current ∈ (depsOf g x).filter (pendingDep g sorted) :=
      List.mem_filter.mpr ⟨hcx, by simp [pendingDep, hcurkey, hcurns]⟩
    have := List.length_pos_of_mem hcmem
    omega
  have hs'nd : (sorted ++ [current]).Nodup := by
    refine List.Nodup.append inv.sorted_nodup (List.nodup_singleton current) ?_
    intro x hx hx2
    rw [List.mem_singleton] at hx2
    exact hcurns (hx2 ▸ hx)
  have hs'keys : ∀ t ∈ sorted ++ [current], isKey g t = true := by
    intro t ht
    rcases List.mem_append.mp ht with h | h
    · exact inv.sorted_keys t h
    · rw [List.mem_singleton] at h
      exact h ▸ hcurkey
  have hsound' : ∀ pre t post, sorted ++ [current] = pre ++ t :: post →
      ∀ d, isKey g d = true → d ∈ depsOf g t → d ∈ pre := by
    intro pre t post hdecomp d hkd hdd
    rcases append_singleton_decomp hdecomp with ⟨hpre, hteq, hpost⟩ | ⟨post', _, hsorted⟩
    · rw [hteq] at hdd
      rw [hpre]
      have hold := inv.deg_eq current hcurkey
      have hzero : ((depsOf g current).filter (pendingDep g sorted)).length = 0 := by
        omega
      have hnil : (depsOf g current).filter (pendingDep g sorted) = [] :=
        List.length_eq_zero.mp hzero
      by_contra hds
      have hmem2 : d ∈ (depsOf g current).filter (pendingDep g sorted) :=
        List.mem_filter.mpr ⟨hdd, by simp [pendingDep, hkd, hds]⟩
      rw [hnil] at hmem2
      simp at hmem2
    · exact inv.sound pre t post' hsorted d hkd hdd
  have htie' : ∀ pre t post, sorted ++ [current] = pre ++ t :: post →
      ∀ u, isKey g u = true → u ∉ pre →
        (∀ d, isKey g d = true → d ∈ depsOf g u → d ∈ pre) → oi t ≤ oi u := by
    intro pre t post hdecomp u hku hu hready
    rcases append_singleton_decomp hdecomp with ⟨hpre, hteq, hpost⟩ | ⟨post', _, hsorted⟩
    · rw [hteq]
      rw [hpre] at hu hready
      have hold := inv.deg_eq u hku
      have hnil : (depsOf g u).filter (pendingDep g sorted) = [] := by
        rw [List.filter_eq_nil_iff]
        intro d hd
        by_cases hkd : isKey g d = true
        · have := hready d hkd hd
          simp [pendingDep, this]
        · simp [pendingDep, hkd]
      have hdegu : deg u = 0 := by
        rw [hnil] at hold
        simpa using hold
      have huq : u ∈ queue := (inv.queue_iff u).mpr ⟨hku, hu, hdegu⟩
      exact sortByOi_head_min hsort u huq
    · exact inv.tie pre t post' hsorted u hku hu hready
  exact ⟨hq'nd, hs'nd, hs'keys, hdeg', hqiff', hsound', htie'⟩

theorem tsortLoop_final {g : Graph} {oi : String → Nat} (hk : (keysOf g).Nodup)
    (hd : ∀ p ∈ g, p.2.Nodup) :
    ∀ fuel (deg : String → Int) (queue sorted : List String),
      TsInv g oi deg queue sorted →
      ((keysOf g).filter fun t => !(decide (t ∈ sorted))).length < fuel →
      ∃ degF, TsInv g oi degF [] (tsortLoop g oi fuel deg queue sorted) := by
  intro fuel
  induction fuel with
  | zero =>
    intro deg queue sorted _ hbound
    omega
  | succ fuel ih =>
    intro deg queue sorted inv hbound
    cases hsort : sortByOi oi queue with
    | nil =>
      have hq : queue = [] := sortByOi_eq_nil hsort
      subst hq
      have hred : tsortLoop g oi (fuel + 1) deg [] sorted = sorted := by
        simp [tsortLoop, sortByOi]
      rw [hred]
      refine ⟨deg, ?_⟩
      exact inv
    | cons current rest =>
      have inv' := step_inv hk hd hsort inv
      have hperm : (current :: rest).Perm queue := hsort ▸ sortByOi_perm oi queue
      have hcurq : current ∈ queue := hperm.mem_iff.mp (List.mem_cons_self current rest)
      obtain ⟨hcurkey, hcurns, _⟩ := (inv.queue_iff current).mp hcurq
      have hcurmem : current ∈ keysOf g := of_decide_eq_true hcurkey
      have hcount := length_filter_sub hk current hcurmem
        (fun t => !(decide (t ∈ sorted)))
        (fun t => !(decide (t ∈ sorted ++ [current])))
        (fun x _ => by
          by_cases h1 : x ∈ sorted
          · simp [h1]
          · by_cases h3 : x = current
            · simp [h1, h3]
            · simp [h1, h3])
        (by simp [hcurns])
      have hred : tsortLoop g oi (fuel + 1) deg queue sorted
          = tsortLoop g oi fuel (decDeg g current deg)
            (rest ++ newlyReady g current deg) (sorted ++ [current]) := by
        simp [tsortLoop, hsort]
      rw [hred]
      exact ih _ _ _ inv' (by omega)

theorem init_inv {g : Graph} (oi : String → Nat) (hk : (keysOf g).Nodup) :
    TsInv g oi (initDeg g)
      ((g.filter fun p => initDeg g p.1 == 0).map Prod.fst) [] := by
  refine ⟨?_, ?_, ?_, ?_, ?_, ?_, ?_⟩
  · exact hk.sublist (List.Sublist.map Prod.fst (List.filter_sublist g))
  · exact List.nodup_nil
  · intro t ht
    simp at ht
  · intro t _
    have hfeq : (depsOf g t).filter (pendingDep g [])
        = (depsOf g t).filter (fun d => isKey g d) :=
      List.filter_congr (fun x _ => by simp [pendingDep])
    rw [hfeq]
    rfl
  · intro t
    constructor
    · intro h
      obtain ⟨p, hp, rfl⟩ := List.mem_map.mp h
      have hp2 := List.mem_filter.mp hp
      exact ⟨isKey_iff.mpr ⟨p, hp2.1, rfl⟩, by simp, eq_of_beq hp2.2⟩
    · rintro ⟨hkt, _, hdeg⟩
      obtain ⟨p, hp, rfl⟩ := isKey_iff.mp hkt
      exact List.mem_map.mpr ⟨p, List.mem_filter.mpr ⟨hp, by simp [hdeg]⟩, rfl⟩
  · intro pre t post h
    simp at h
  · intro pre t post h
    simp at h

/-- The final-state invariant delivered by a full run of
`topological_sort`. -/
theorem topological_sort_inv {g : Graph} (oi : String → Nat)
    (hk : (keysOf g).Nodup) (hd : ∀ p ∈ g, p.2.Nodup) :
    ∃ degF, TsInv g oi degF [] (topological_sort g oi) := by
  have hbound : ((keysOf g).filter fun t => !(decide (t ∈ ([] : List String)))).length
      < 2 * g.length + 1 := by
    have h1 : ((keysOf g).filter fun t => !(decide (t ∈ ([] : List String)))).length
        ≤ (keysOf g).length := List.length_filter_le _ _
    have h2 : (keysOf g).length = g.length := List.length_map g Prod.fst
    omega
  exact tsortLoop_final hk hd (2 * g.length + 1) (initDeg g) _ [] (init_inv oi hk) hbound

/-- Acyclicity of the dependency graph restricted to known sibling titles,
expressed as the existence of a topological numbering. -/
def HasRank (g : Graph) : Prop :=
  ∃ r : String → Nat, ∀ p ∈ g, ∀ d ∈ p.2, isKey g d = true → r d < r p.1

/-! ## Claim theorems -/

/-- C5: for every task set whose dependsOn graph (restricted to known
sibling titles) is acyclic, with distinct titles and duplicate-free
dependency lists, the dependency resolver's output ordering contains every
task, places every task after all of its known prerequisites, and at every
position the emitted task minimizes the declared sequence index among the
tasks that are ready (all known prerequisites already emitted) and not yet
emitted. -/
theorem c5_dependency_resolver_order (g : Graph) (oi : String → Nat)
    (hk : (keysOf g).Nodup) (hd : ∀ p ∈ g, p.2.Nodup) (hr : HasRank g) :
    (∀ t, isKey g t = true → t ∈ topological_sort g oi)
    ∧ (∀ pre t post, topological_sort g oi = pre ++ t :: post →
        ∀ d, isKey g d = true → d ∈ depsOf g t → d ∈ pre)
    ∧ (∀ pre t post, topological_sort g oi = pre ++ t :: post →
        ∀ u, isKey g u = true → u ∉ pre →
          (∀ d, isKey g d = true → d ∈ depsOf g u → d ∈ pre) → oi t ≤ oi u) := by
  obtain ⟨degF, invF⟩ := topological_sort_inv oi hk hd
  refine ⟨?_, invF.sound, invF.tie⟩
  obtain ⟨r, hrank⟩ := hr
  have key : ∀ n t, r t < n → isKey g t = true → t ∈ topological_sort g oi := by
    intro n
    induction n with
    | zero =>
      intro t h _
      omega
    | succ n ihn =>
      intro t hlt hkt
      obtain ⟨p, hp, rfl⟩ := isKey_iff.mp hkt
      have hdeps : ∀ d, isKey g d = true → d ∈ depsOf g p.1 →
          d ∈ topological_sort g oi := by
        intro d hkd hdd
        have hd2 : d ∈ p.2 := by
          rw [← depsOf_eq hk hp]
          exact hdd
        have := hrank p hp d hd2 hkd
        exact ihn d (by omega) hkd
      have hnil : (depsOf g p.1).filter (pendingDep g (topological_sort g oi)) = [] := by
        rw [List.filter_eq_nil_iff]
        intro d hdmem
        by_cases hkd : isKey g d = true
        · have := hdeps d hkd hdmem
          simp [pendingDep, this]
        · simp [pendingDep, hkd]
      have hdeg0 : degF p.1 = 0 := by
        have := invF.deg_eq p.1 hkt
        rw [hnil] at this
        simpa using this
      by_contra hnot
      have : p.1 ∈ ([] : List String) := (invF.queue_iff p.1).mpr ⟨hkt, hnot, hdeg0⟩
      simp at this
  intro t hkt
  exact key (r t + 1) t (by omega) hkt

/-- Demonstration graph for C5: "Draft" depends on "Outline". -/
def demoAcyclic : Graph := [("Outline", []), ("Draft", ["Outline"])]

/-- Sequence indices of the demonstration tasks. -/
def demoOi : String → Nat := fun s => if s = "Outline" then 0 else 1

/-- Witness for C5 at a concrete two-task graph. -/
theorem c5_dependency_resolver_order_witness :
    ((keysOf demoAcyclic).Nodup ∧ (∀ p ∈ demoAcyclic, p.2.Nodup) ∧ HasRank demoAcyclic)
    ∧ ((∀ t, isKey demoAcyclic t = true → t ∈ topological_sort demoAcyclic demoOi)
       ∧ (∀ pre t post, topological_sort demoAcyclic demoOi = pre ++ t :: post →
            ∀ d, isKey demoAcyclic d = true → d ∈ depsOf demoAcyclic t → d ∈ pre)
       ∧ (∀ pre t post, topological_sort demoAcyclic demoOi = pre ++ t :: post →
            ∀ u, isKey demoAcyclic u = true → u ∉ pre →
              (∀ d, isKey demoAcyclic d = true → d ∈ depsOf demoAcyclic u → d ∈ pre) →
              demoOi t ≤ demoOi u)) :=
  ⟨⟨by decide, by decide, ⟨demoOi, by decide⟩⟩,
    c5_dependency_resolver_order demoAcyclic demoOi (by decide) (by decide)
      ⟨demoOi, by decide⟩⟩

/-- C6: every task lying on a dependency cycle among known sibling titles
(and every task whose prerequisites transitively reach such a cycle — any
member of a set in which each task has a known prerequisite in the set)
never appears in the dependency resolver's output ordering, so it is never
attempted by the scheduler, which iterates exactly over that ordering; the
resolver raises no error and reports no cycle, being a total function into
plain lists. -/
theorem c6_cycle_silently_dropped (g : Graph) (oi : String → Nat)
    (hk : (keysOf g).Nodup) (hd : ∀ p ∈ g, p.2.Nodup) (C : List String)
    (hC : ∀ t ∈ C, isKey g t = true ∧
      ∃ d, d ∈ depsOf g t ∧ isKey g d = true ∧ d ∈ C) :
    ∀ t ∈ C, t ∉ topological_sort g oi := by
  obtain ⟨degF, invF⟩ := topological_sort_inv oi hk hd
  have key : ∀ n (pre : List String) t post,
      topological_sort g oi = pre ++ t :: post → pre.length = n → t ∉ C := by
    intro n
    induction n using Nat.strong_induction_on with
    | _ n ihn =>
      intro pre t post hdec hlen htC
      obtain ⟨hkt, d, hdd, hkd, hdC⟩ := hC t htC
      have hdpre : d ∈ pre := invF.sound pre t post hdec d hkd hdd
      obtain ⟨p1, p2, hpre⟩ := List.append_of_mem hdpre
      have hdec2 : topological_sort g oi = p1 ++ d :: (p2 ++ t :: post) := by
        rw [hdec, hpre]
        simp
      have hlt : p1.length < n := by
        rw [← hlen, hpre]
        simp
      exact ihn p1.length hlt p1 d (p2 ++ t :: post) hdec2 rfl hdC
  intro t htC hmem
  obtain ⟨pre, post, hdec⟩ := List.append_of_mem hmem
  exact key pre.length pre t post hdec rfl htC

/-- Demonstration graph for C6: "Review" and "Revise" depend on each other;
"Setup" is independent. -/
def demoCyclic : Graph :=
  [("Review", ["Revise"]), ("Revise", ["Review"]), ("Setup", [])]

/-- Witness for C6 at a concrete cyclic graph. -/
theorem c6_cycle_silently_dropped_witness :
    ((keysOf demoCyclic).Nodup ∧ (∀ p ∈ demoCyclic, p.2.Nodup)
      ∧ (∀ t ∈ ["Review", "Revise"], isKey demoCyclic t = true ∧
          ∃ d, d ∈ depsOf demoCyclic t ∧ isKey demoCyclic d = true ∧
            d ∈ ["Review", "Revise"]))
    ∧ (∀ t ∈ ["Review", "Revise"], t ∉ topological_sort demoCyclic demoOi) :=
  ⟨⟨by decide, by decide, by decide⟩,
    c6_cycle_silently_dropped demoCyclic demoOi (by decide) (by decide)
      ["Review", "Revise"] (by decide)⟩

/-- C8: for every candidate interval `[s, e)` and busy timeline,
`is_slot_free(s, e, withBuffer)` returns true iff no interval of the
timeline, padded by `bufferMinutes` on both sides when `withBuffer` (and
unpadded otherwise), shares an instant with `[s, e)` — assuming a
non-negative buffer, a non-empty candidate and well-formed busy intervals,
as the source enforces (`add_busy_interval` drops `end <= start`). -/
theorem c8_is_slot_free_iff (buffer : Int) (hb : 0 ≤ buffer)
    (busy : List (Int × Int)) (hbusy : ∀ iv ∈ busy, iv.1 < iv.2)
    (s e : Int) (hse : s < e) (wb : Bool) :
    is_slot_free buffer busy s e wb = true ↔
      ∀ iv ∈ busy, ¬ intervalsOverlap (s, e) (pad (if wb then buffer else 0) iv) := by
  have hb' : (0 : Int) ≤ (if wb then buffer else 0) := by
    cases wb <;> simp [hb]
  simp only [is_slot_free, List.all_eq_true]
  constructor
  · intro h iv hiv hov
    have hfree := h iv hiv
    simp only [Bool.not_eq_true', Bool.and_eq_false_iff, decide_eq_false_iff_not,
      not_lt] at hfree
    obtain ⟨t, ⟨hst, hte⟩, ⟨h1, h2⟩⟩ := hov
    simp only [pad] at h1 h2
    rcases hfree with hx | hx <;> omega
  · intro h iv hiv
    simp only [Bool.not_eq_true', Bool.and_eq_false_iff, decide_eq_false_iff_not,
      not_lt]
    by_contra hcon
    push_neg at hcon
    obtain ⟨hx, hy⟩ := hcon
    have hivlt := hbusy iv hiv
    refine h iv hiv ⟨max s (iv.1 - (if wb then buffer else 0)), ⟨le_max_left _ _, ?_⟩,
      ⟨le_max_right _ _, ?_⟩⟩
    · exact max_lt hse (by omega)
    · show max s (iv.1 - (if wb then buffer else 0)) < (pad (if wb then buffer else 0) iv).2
      simp only [pad]
      exact max_lt (by omega) (by omega)

/-- Witness for C8 on a concrete timeline. -/
theorem c8_is_slot_free_iff_witness :
    ((0 : Int) ≤ 15 ∧ (∀ iv ∈ [((0 : Int), (60 : Int))], iv.1 < iv.2) ∧ (100 : Int) < 160)
    ∧ (is_slot_free 15 [((0 : Int), (60 : Int))] 100 160 true = true ↔
        ∀ iv ∈ [((0 : Int), (60 : Int))], ¬ intervalsOverlap (100, 160) (pad 15 iv)) :=
  ⟨⟨by decide, by decide, by decide⟩, by
    have h := c8_is_slot_free_iff 15 (by decide) [((0 : Int), (60 : Int))]
      (by decide) 100 160 (by decide) true
    simpa using h⟩

/-- The foldl of `get_daily_study_minutes` accumulates exactly the
specification-side filtered sum. -/
theorem gdsm_fold (date : Int) (busy : List (Int × Int)) (a : Int) :
    busy.foldl
      (fun total bi =>
        if dayFloor date ≤ bi.1 ∧ bi.2 ≤ dayFloor date + 1440 then
          if bi.2 - bi.1 ≤ 180 then total + (bi.2 - bi.1) else total
        else total) a
      = a + specDailyLoad busy date := by
  induction busy generalizing a with
  | nil => simp [specDailyLoad]
  | cons bi t ih =>
    simp only [List.foldl_cons]
    by_cases h1 : dayFloor date ≤ bi.1 ∧ bi.2 ≤ dayFloor date + 1440
    · by_cases h2 : bi.2 - bi.1 ≤ 180
      · rw [if_pos h1, if_pos h2, ih]
        simp only [specDailyLoad, List.filter_cons]
        rw [if_pos (by simp [h1.1, h1.2, h2])]
        simp only [List.map_cons, List.sum_cons]
        have : specDailyLoad t date
            = ((t.filter fun bi =>
                decide (dayFloor date ≤ bi.1) && decide (bi.2 ≤ dayFloor date + 1440)
                  && decide (bi.2 - bi.1 ≤ 180)).map (fun bi => bi.2 - bi.1)).sum := rfl
        omega
      · rw [if_pos h1, if_neg h2, ih]
        simp only [specDailyLoad, List.filter_cons]
        rw [if_neg (by simp [h2])]
    · rw [if_neg h1, ih]
      simp only [specDailyLoad, List.filter_cons]
      rw [if_neg (by rw [not_and_or] at h1; rcases h1 with h | h <;> simp [h])]

/-- C9: `get_daily_study_minutes` equals the sum of the durations of
exactly those busy intervals fully contained in the calendar day that last
at most 180 minutes, and whenever that load plus the task's duration would
exceed `maxDailyHours * 60` the day fails the loop's check and the day loop
of the slot search skips it entirely. -/
theorem c9_daily_load_and_cap (busy : List (Int × Int)) (d : Int)
    (da : List Int) (mh dur : Int)
    (hover : get_daily_study_minutes busy d + dur > mh * 60) :
    get_daily_study_minutes busy d = specDailyLoad busy d
    ∧ dayPasses da busy mh dur d = false
    ∧ ∀ (blocksNonempty : Bool) (ds : List Int),
        primaryDays blocksNonempty da busy mh dur (d :: ds)
          = primaryDays blocksNonempty da busy mh dur ds := by
  have heq : get_daily_study_minutes busy d = specDailyLoad busy d := by
    have := gdsm_fold d busy 0
    simpa [get_daily_study_minutes] using this
  have hfail : dayPasses da busy mh dur d = false := by
    simp [dayPasses, hover]
  refine ⟨heq, hfail, ?_⟩
  intro blocksNonempty ds
  simp [primaryDays, hfail]

/-- Witness for C9 on a concrete over-cap day. -/
theorem c9_daily_load_and_cap_witness :
    (get_daily_study_minutes [((29368800 : Int), 29368920)] 29368800 + 300 > 6 * 60)
    ∧ (get_daily_study_minutes [((29368800 : Int), 29368920)] 29368800
        = specDailyLoad [((29368800 : Int), 29368920)] 29368800
      ∧ dayPasses [1, 2, 3, 4, 5] [((29368800 : Int), 29368920)] 6 300 29368800 = false
      ∧ ∀ (blocksNonempty : Bool) (ds : List Int),
          primaryDays blocksNonempty [1, 2, 3, 4, 5] [((29368800 : Int), 29368920)]
              6 300 (29368800 :: ds)
            = primaryDays blocksNonempty [1, 2, 3, 4, 5] [((29368800 : Int), 29368920)]
              6 300 ds) :=
  ⟨by decide,
    c9_daily_load_and_cap [((29368800 : Int), 29368920)] 29368800 [1, 2, 3, 4, 5] 6 300
      (by decide)⟩

/-- C7: a date-only external event on 2025-11-10 (exclusive end
2025-11-11) in America/New_York (UTC-5, no DST transition in range) is
expanded to the busy interval spanning UTC minutes 29379180 to 29380620 —
local midnight to local midnight — and once that interval is on the busy
timeline, any candidate slot accepted by `is_slot_free` (as every
placement path requires, with buffer) contains no instant of the blocked
local day. -/
theorem c7_all_day_event_blocks_day (buffer : Int) (busy : List (Int × Int))
    (s e : Int) (hb : 0 ≤ buffer)
    (hmem : allDayBusyInterval (-300) 20402 20403 ∈ busy)
    (hfree : is_slot_free buffer busy s e true = true) :
    allDayBusyInterval (-300) 20402 20403 = (29379180, 29380620)
    ∧ ∀ t : Int, s ≤ t → t < e → ¬((29379180 : Int) ≤ t ∧ t < 29380620) := by
  have hiv : allDayBusyInterval (-300) 20402 20403
      = ((29379180 : Int), (29380620 : Int)) := by decide
  refine ⟨hiv, ?_⟩
  rw [hiv] at hmem
  intro t hst hte hband
  have hall : ∀ bi ∈ busy,
      (!(decide (s < bi.2 + buffer) && decide (e + buffer > bi.1))) = true := by
    simpa [is_slot_free, List.all_eq_true] using hfree
  have h2 := hall _ hmem
  simp only [Bool.not_eq_true', Bool.and_eq_false_iff, decide_eq_false_iff_not,
    not_lt] at h2
  obtain ⟨hband1, hband2⟩ := hband
  rcases h2 with h | h <;> omega

/-- Witness for C7: a slot after the blocked day is accepted and indeed
avoids it. -/
theorem c7_all_day_event_blocks_day_witness :
    ((0 : Int) ≤ 15
      ∧ allDayBusyInterval (-300) 20402 20403 ∈ [((29379180 : Int), (29380620 : Int))]
      ∧ is_slot_free 15 [((29379180 : Int), (29380620 : Int))] 29380635 29380695 true = true)
    ∧ (allDayBusyInterval (-300) 20402 20403 = (29379180, 29380620)
      ∧ ∀ t : Int, 29380635 ≤ t → t < 29380695 →
          ¬((29379180 : Int) ≤ t ∧ t < 29380620)) :=
  ⟨⟨by decide, by decide, by decide⟩,
    c7_all_day_event_blocks_day 15 [((29379180 : Int), (29380620 : Int))] 29380635 29380695
      (by decide) (by decide) (by decide)⟩

/-- Scenario A, task A: 60-minute medium-intensity task, no dependencies. -/
def scenarioATaskA : TaskRec :=
  { title := "A", estimatedDuration := 60, intensity := "medium",
    dependsOn := [], orderIndex := 0 }

/-- Scenario A, task B: 60-minute medium-intensity task depending on A. -/
def scenarioATaskB : TaskRec :=
  { title := "B", estimatedDuration := 60, intensity := "medium",
    dependsOn := ["A"], orderIndex := 1 }

/-- Scenario A input: both tasks, weekday availability, a 09:00-17:00
preferred window, an empty calendar, default cap and buffer, the run
starting Monday 2025-11-03 (UTC midnight, minute 29368800), no due date. -/
def scenarioAInput : SchedInput :=
  { tasks := [scenarioATaskA, scenarioATaskB], daysAvailable := [1, 2, 3, 4, 5],
    blocks := [(540, 1020)], maxDailyHours := 6, bufferMinutes := 15,
    needsMoreTime := false, busy0 := [], start := 29368800, dueTarget := none }

/-- C1: on Scenario A the normal scheduling mode does not commit anything:
the first available day reaches the preferred-window loop, whose body
dereferences the undefined name `user_tz_offset` and raises `NameError`;
the outer handler returns `success=False` with the error message and no
scheduled tasks, contradicting the claim that the run succeeds with both
tasks committed in dependency order. -/
theorem c1_scenario_a_crashes :
    schedule_tasks_model scenarioAInput (fun _ _ _ => true)
      = { success := false, error := some nameErrMsg, scheduledTitles := [] } := by
  decide

/-- C10: the scheduling entry point converts every raised error of its body
into a returned dictionary with `success=False` and the error message —
nothing propagates to the caller. -/
theorem c10_exceptions_become_failure_dict (inp : SchedInput)
    (commitOk : String → Int → Int → Bool) (msg : String)
    (h : scheduleBody inp commitOk = .error msg) :
    schedule_tasks_model inp commitOk
      = { success := false, error := some msg, scheduledTitles := [] } := by
  simp [schedule_tasks_model, h]

/-- A single 30-minute task, for the C10 witness input. -/
def c10DemoTask : TaskRec :=
  { title := "T", estimatedDuration := 30, intensity := "light",
    dependsOn := [], orderIndex := 0 }

/-- One-task input whose body raises, for the C10 witness. -/
def c10DemoInput : SchedInput :=
  { tasks := [c10DemoTask],
    daysAvailable := [1], blocks := [(600, 660)], maxDailyHours := 6,
    bufferMinutes := 15, needsMoreTime := false, busy0 := [],
    start := 29368800, dueTarget := none }

/-- Witness for C10 at a concrete raising input. -/
theorem c10_exceptions_become_failure_dict_witness :
    scheduleBody c10DemoInput (fun _ _ _ => true) = .error nameErrMsg
    ∧ schedule_tasks_model c10DemoInput (fun _ _ _ => true)
      = { success := false, error := some nameErrMsg, scheduledTitles := [] } :=
  ⟨by rfl,
    c10_exceptions_become_failure_dict c10DemoInput (fun _ _ _ => true) nameErrMsg
      (by rfl)⟩

/-- C4 counterexample: a 90-minute "intense" candidate proposed 30 minutes
after an "intense" interval already on the busy timeline is accepted, not
rejected — pre-existing timeline intervals carry no intensity, and with no
task yet scheduled in this run (`last_scheduled_intensity is None`) the
cooldown check never fires. -/
theorem c4_counterexample_timeline_intense_not_rejected :
    findCandidateInBlock 15 [(0, 60)] "intense" none none 90 45 90 600 = some 90
    ∧ ((90 : Int) - 60 < 60) := by
  decide

/-- C4 (amended): the 60-minute cooldown acts only on the task scheduled
immediately before in the same run: when that task was "intense" and ended
at `lastEnd`, any candidate the cursor loop accepts for an "intense" task
is free with buffer and starts at least 60 minutes after `lastEnd` —
candidates with a smaller gap are skipped, the cursor advancing by the slot
increment. -/
theorem c4_intense_cooldown_within_run (buffer : Int) (busy : List (Int × Int))
    (lastEnd dur inc blockStart blockEnd c : Int)
    (h : findCandidateInBlock buffer busy "intense" (some "intense") (some lastEnd)
      dur inc blockStart blockEnd = some c) :
    is_slot_free buffer busy c (c + dur) true = true ∧ lastEnd + 60 ≤ c := by
  suffices key : ∀ fuel cand,
      candidateLoop buffer busy "intense" (some "intense") (some lastEnd) dur inc blockEnd
        fuel cand = some c →
      is_slot_free buffer busy c (c + dur) true = true ∧ lastEnd + 60 ≤ c from
    key _ _ h
  intro fuel
  induction fuel with
  | zero =>
    intro cand h0
    simp [candidateLoop] at h0
  | succ fuel ih =>
    intro cand h0
    simp only [candidateLoop] at h0
    split at h0
    · split at h0
      · split at h0
        · exact ih _ h0
        · obtain rfl : cand = c := Option.some.inj h0
          rename_i hfree hcool
          refine ⟨hfree, ?_⟩
          simp only [cooldownRejects] at hcool
          simp at hcool
          omega
      · exact ih _ h0
    · simp at h0

/-- Witness for C4's amended cooldown property at a concrete run state. -/
theorem c4_intense_cooldown_within_run_witness :
    (findCandidateInBlock 15 [] "intense" (some "intense") (some 0) 90 45 0 600
      = some 90)
    ∧ (is_slot_free 15 [] 90 (90 + 90) true = true ∧ (0 : Int) + 60 ≤ 90) :=
  ⟨by decide,
    c4_intense_cooldown_within_run 15 [] 0 90 45 0 600 90 (by decide)⟩

/-- The calendar events the first attempt of the atomic commit sees: the
cached entry when one is present, otherwise the fresh fetch. -/
def visibleAt0 (env : AtomicEnv) (cache0 : Option (List Event)) : List Event :=
  match cache0 with
  | some evs => evs
  | none => (env.fetch 0).getD []

/-- Environment after a successful commit: the external calendar holds the
committed event, and the cache was cleared by the success path. -/
def alreadyCommittedEnv : AtomicEnv :=
  { fetch := fun _ => some [{ id := "evt-1", start := 100, stop := 160 }],
    create := fun _ => .ok { id := "evt-2", start := 100, stop := 160 },
    hasAuth := true }

/-- C3 counterexample: re-running the commit step for the already-committed
candidate `[100, 160)` inside the cache TTL (the cache having been cleared
by the original success, so the fresh fetch shows the task's own event)
returns `CONFLICT_DETECTED`, not the original event reference. -/
theorem c3_counterexample_recommit_conflicts :
    create_calendar_event_atomic alreadyCommittedEnv 100 160 3 none
      = (.conflictDetected freshConflictMsg true,
          some [{ id := "evt-1", start := 100, stop := 160 }], 0)
    ∧ ∀ ev n, (create_calendar_event_atomic alreadyCommittedEnv 100 160 3 none).1
        ≠ AtomicResult.success ev n := by
  have h1 : create_calendar_event_atomic alreadyCommittedEnv 100 160 3 none
      = (.conflictDetected freshConflictMsg true,
          some [{ id := "evt-1", start := 100, stop := 160 }], 0) := by decide
  refine ⟨h1, ?_⟩
  intro ev n h
  rw [h1] at h
  simp at h

/-- C3 (amended): whenever the events visible to the first attempt contain
one overlapping the candidate `[s, e)` — as the task's own committed event
does on a re-run — the atomic commit returns `CONFLICT_DETECTED` and never
calls the external create endpoint, so no duplicate event is created, but
no event reference is returned either. -/
theorem c3_recommit_no_duplicate (env : AtomicEnv) (s e : Int)
    (cache0 : Option (List Event)) (mr : Nat) (hmr : 0 < mr)
    (hconf : (visibleAt0 env cache0).any
      (fun ev => decide (s < ev.stop) && decide (e > ev.start)) = true) :
    ∃ cache1, create_calendar_event_atomic env s e mr cache0
      = (.conflictDetected freshConflictMsg (0 < mr - 1), cache1, 0) := by
  obtain ⟨k, rfl⟩ : ∃ k, mr = k + 1 := ⟨mr - 1, by omega⟩
  cases cache0 with
  | some evs =>
    simp only [visibleAt0] at hconf
    refine ⟨some evs, ?_⟩
    simp [create_calendar_event_atomic, atomicLoop, hconf]
  | none =>
    cases hf : env.fetch 0 with
    | some evs =>
      simp only [visibleAt0, hf, Option.getD_some] at hconf
      refine ⟨some evs, ?_⟩
      simp [create_calendar_event_atomic, atomicLoop, hf, hconf]
    | none =>
      simp [visibleAt0, hf] at hconf

/-- Witness for C3's amended no-duplicate property. -/
theorem c3_recommit_no_duplicate_witness :
    ((0 : Nat) < 3
      ∧ (visibleAt0 alreadyCommittedEnv (some [{ id := "evt-7", start := 190, stop := 260 }])).any
          (fun ev => decide ((200 : Int) < ev.stop) && decide ((260 : Int) > ev.start)) = true)
    ∧ ∃ cache1, create_calendar_event_atomic alreadyCommittedEnv 200 260 3
        (some [{ id := "evt-7", start := 190, stop := 260 }])
      = (.conflictDetected freshConflictMsg (0 < 3 - 1), cache1, 0) :=
  ⟨⟨by decide, by decide⟩,
    c3_recommit_no_duplicate alreadyCommittedEnv 200 260
      (some [{ id := "evt-7", start := 190, stop := 260 }]) 3 (by decide) (by decide)⟩

/-- A successful atomic commit really called the external create endpoint:
the attempt it reports is the one whose create call returned the event. -/
theorem atomicLoop_success_create {env : AtomicEnv} {s e : Int} {mr : Nat}
    {ev : Event} {n : Nat} :
    ∀ fuel attempt cache calls,
      (atomicLoop env s e mr attempt fuel cache calls).1 = .success ev n →
      env.create (n - 1) = .ok ev := by
  intro fuel
  induction fuel with
  | zero =>
    intro attempt cache calls h
    simp [atomicLoop] at h
  | succ fuel ih =>
    intro attempt cache calls h
    simp only [atomicLoop] at h
    cases cache with
    | some evs =>
      simp only at h
      split at h
      · simp at h
      · split at h
        · simp at h
        · split at h
          · rename_i ev2 heq
            simp at h
            obtain ⟨rfl, hn⟩ := h
            rw [show n - 1 = attempt by omega]
            exact heq
          · split at h <;> simp at h
          · split at h
            · exact ih _ _ _ h
            · simp at h
          · split at h
            · exact ih _ _ _ h
            · simp at h
    | none =>
      cases hf : env.fetch attempt with
      | some evs =>
        simp only [hf] at h
        split at h
        · simp at h
        · split at h
          · simp at h
          · split at h
            · rename_i ev2 heq
              simp at h
              obtain ⟨rfl, hn⟩ := h
              rw [show n - 1 = attempt by omega]
              exact heq
            · split at h <;> simp at h
            · split at h
              · exact ih _ _ _ h
              · simp at h
            · split at h
              · exact ih _ _ _ h
              · simp at h
      | none =>
        simp only [hf] at h
        split at h
        · simp at h
        · split at h
          · simp at h
          · split at h
            · rename_i ev2 heq
              simp at h
              obtain ⟨rfl, hn⟩ := h
              rw [show n - 1 = attempt by omega]
              exact heq
            · split at h <;> simp at h
            · split at h
              · exact ih _ _ _ h
              · simp at h
            · split at h
              · exact ih _ _ _ h
              · simp at h

/-- When the prior record is consistent (both fields set or both unset),
the rollback write restores exactly the prior record. -/
theorem rollback_restores {prior : TaskSched}
    (hprior : prior.schedStart.isSome ↔ prior.schedEnd.isSome)
    (db : TaskSched) : rollback prior db = prior := by
  obtain ⟨ps, pe⟩ := prior
  cases ps <;> cases pe <;> simp_all [rollback]

/-- Environment whose create endpoint fails non-retryably, for the C2
counterexample. -/
def failingCreateEnv : AtomicEnv :=
  { fetch := fun _ => some [], create := fun _ => .emptyErrors "boom",
    hasAuth := true }

/-- C2 counterexample: a task whose prior record has `scheduledStart` set
but `scheduledEnd` unset is rolled back field-wise — the failed commit
leaves the record `(prior start, tentative end)`, which is neither the
pre-attempt snapshot nor the cleared state nor a committed slot with an
external event. -/
theorem c2_counterexample_partial_snapshot :
    commitTask failingCreateEnv { schedStart := some 10, schedEnd := none } 100 160 3 none
      = ({ schedStart := some 10, schedEnd := some 160 }, .apiError "boom")
    ∧ ({ schedStart := some 10, schedEnd := some 160 } : TaskSched)
        ≠ { schedStart := some 10, schedEnd := none }
    ∧ ({ schedStart := some 10, schedEnd := some 160 } : TaskSched)
        ≠ { schedStart := none, schedEnd := none } := by
  decide

/-- C2 (amended): for every task whose prior scheduledStart/scheduledEnd
are both set or both unset — the shape every other write in the store
produces — the commit step ends in exactly one of two states: on success
the record carries the committed slot and the external create endpoint
returned the recorded event; on any failure (conflict, API error, exception,
missing auth, retries exhausted) the tentative write is rolled back to the
pre-attempt record (clearing the fields when none were set, since then the
prior record is the cleared record). When exactly one prior field was set,
the rollback restores only that field and the tentative value of the other
survives. -/
theorem c2_commit_two_outcomes (env : AtomicEnv) (prior : TaskSched) (s e : Int)
    (mr : Nat) (cache0 : Option (List Event))
    (hprior : prior.schedStart.isSome ↔ prior.schedEnd.isSome) :
    (∀ ev n, (commitTask env prior s e mr cache0).2 = .success ev n →
      (commitTask env prior s e mr cache0).1
          = { schedStart := some s, schedEnd := some e }
        ∧ env.create (n - 1) = .ok ev)
    ∧ ((∀ ev n, (commitTask env prior s e mr cache0).2 ≠ .success ev n) →
      (commitTask env prior s e mr cache0).1 = prior) := by
  cases hres : (create_calendar_event_atomic env s e mr cache0).1 with
  | success ev0 n0 =>
    constructor
    · intro ev n h
      rw [show (commitTask env prior s e mr cache0).2 = .success ev0 n0 by
        simp [commitTask, hres]] at h
      obtain ⟨rfl, rfl⟩ : ev0 = ev ∧ n0 = n := by
        simpa using h
      refine ⟨by simp [commitTask, hres], ?_⟩
      exact atomicLoop_success_create mr 0 cache0 0 hres
    · intro hne
      exact absurd (by simp [commitTask, hres]) (hne ev0 n0)
  | conflictDetected msg retry =>
    refine ⟨?_, ?_⟩
    · intro ev n h
      rw [show (commitTask env prior s e mr cache0).2 = .conflictDetected msg retry by
        simp [commitTask, hres]] at h
      simp at h
    · intro _
      rw [show (commitTask env prior s e mr cache0).1
          = rollback prior { schedStart := some s, schedEnd := some e } by
        simp [commitTask, hres]]
      exact rollback_restores hprior _
  | noAuth =>
    refine ⟨?_, ?_⟩
    · intro ev n h
      rw [show (commitTask env prior s e mr cache0).2 = .noAuth by
        simp [commitTask, hres]] at h
      simp at h
    · intro _
      rw [show (commitTask env prior s e mr cache0).1
          = rollback prior { schedStart := some s, schedEnd := some e } by
        simp [commitTask, hres]]
      exact rollback_restores hprior _
  | apiError msg =>
    refine ⟨?_, ?_⟩
    · intro ev n h
      rw [show (commitTask env prior s e mr cache0).2 = .apiError msg by
        simp [commitTask, hres]] at h
      simp at h
    · intro _
      rw [show (commitTask env prior s e mr cache0).1
          = rollback prior { schedStart := some s, schedEnd := some e } by
        simp [commitTask, hres]]
      exact rollback_restores hprior _
  | exceptionError msg =>
    refine ⟨?_, ?_⟩
    · intro ev n h
      rw [show (commitTask env prior s e mr cache0).2 = .exceptionError msg by
        simp [commitTask, hres]] at h
      simp at h
    · intro _
      rw [show (commitTask env prior s e mr cache0).1
          = rollback prior { schedStart := some s, schedEnd := some e } by
        simp [commitTask, hres]]
      exact rollback_restores hprior _
  | maxRetriesExceeded =>
    refine ⟨?_, ?_⟩
    · intro ev n h
      rw [show (commitTask env prior s e mr cache0).2 = .maxRetriesExceeded by
        simp [commitTask, hres]] at h
      simp at h
    · intro _
      rw [show (commitTask env prior s e mr cache0).1
          = rollback prior { schedStart := some s, schedEnd := some e } by
        simp [commitTask, hres]]
      exact rollback_restores hprior _

/-- Environment whose create endpoint succeeds, for the C2 witness. -/
def successCreateEnv : AtomicEnv :=
  { fetch := fun _ => some [],
    create := fun _ => .ok { id := "evt-9", start := 300, stop := 360 },
    hasAuth := true }

/-- Witness for C2's amended two-state property at a concrete commit. -/
theorem c2_commit_two_outcomes_witness :
    (({ schedStart := none, schedEnd := none } : TaskSched).schedStart.isSome
      ↔ ({ schedStart := none, schedEnd := none } : TaskSched).schedEnd.isSome)
    ∧ ((∀ ev n,
        (commitTask successCreateEnv { schedStart := none, schedEnd := none }
          300 360 3 none).2 = .success ev n →
        (commitTask successCreateEnv { schedStart := none, schedEnd := none }
          300 360 3 none).1 = { schedStart := some 300, schedEnd := some 360 }
          ∧ successCreateEnv.create (n - 1) = .ok ev)
      ∧ ((∀ ev n,
          (commitTask successCreateEnv { schedStart := none, schedEnd := none }
            300 360 3 none).2 ≠ .success ev n) →
        (commitTask successCreateEnv { schedStart := none, schedEnd := none }
          300 360 3 none).1 = { schedStart := none, schedEnd := none })) :=
  ⟨by decide,
    c2_commit_two_outcomes successCreateEnv { schedStart := none, schedEnd := none }
      300 360 3 none (by decide)⟩

end Sched
